import Mathlib

/-!
A shallow embedding of the concurrency-safe enrollment and waitlist subsystem
of the smart_course_registration repository
(src/enrollment/views.py, src/enrollment/tasks.py, src/enrollment/models.py,
src/courses/models.py), together with theorems settling the specification
claims about it.

Conventions of the embedding:
* database rows become Lean structures; the three tables live in a `DB` record
  as insertion-ordered lists (matching default primary-key order);
* the Python dict key `end` produced by `parse_schedule` is rendered as the
  field `stop`, since `end` is a Lean keyword; `section` fields are rendered
  as `sectionId` for the same reason;
* Django's `auto_now_add` timestamps are passed in explicitly as a `ts`
  argument (`joined_at`); `Waitlist` primary keys come from the `nextWaitlistId`
  counter of the state;
* exceptions become `Option`/failure constructors; each HTTP handler and the
  celery task are single atomic state transitions, matching the single
  `transaction.atomic()` block each of them runs under;
* `send_mail` calls are recorded in an `outbox` list;
* integer literal parsing inside `parse_schedule` is modeled with
  `String.toInt?` (Python's `int`).
-/

namespace CourseReg


/-- One parsed schedule slot, as produced by `EnrollStudentView.parse_schedule`:
the Python dict \x7b'day': d, 'start': s, 'end': e\x7d with times in minutes
from midnight (the `end` key is rendered `stop`). -/
structure Slot where
  day : String
  start : Int
  stop : Int
  deriving DecidableEq

/-- Python `str.split(sep)` with a one-character separator: splits on every
occurrence of the separator, keeping empty fields. -/
def splitOnChar (sep : Char) : List Char → List (List Char)
  | [] => [[]]
  | c :: cs =>
    match splitOnChar sep cs, decide (c = sep) with
    | r, true => [] :: r
    | [], false => [[c]]
    | g :: gs, false => (c :: g) :: gs

/-- Decimal value of a nonempty digit string, `none` on anything else. -/
def digitsValAux : List Char → Nat → Option Nat
  | [], acc => some acc
  | c :: cs, acc =>
    if c.isDigit then digitsValAux cs (acc * 10 + (c.toNat - 48)) else none

/-- Python `int(s)` as used by `map(int, t_str.split(':'))`: an optional sign
followed by decimal digits (Python's additional tolerance for surrounding
whitespace and digit-group underscores is not relied on by any caller). -/
def parse_int : List Char → Option Int
  | [] => none
  | '-' :: cs =>
    if cs.isEmpty then none else (digitsValAux cs 0).map fun n => -(n : Int)
  | '+' :: cs =>
    if cs.isEmpty then none else (digitsValAux cs 0).map fun n => (n : Int)
  | c :: cs => (digitsValAux (c :: cs) 0).map fun n => (n : Int)

/-- The inner helper `time_to_minutes` of `parse_schedule`: splits on ":",
requires exactly two integer fields, returns h*60+m; any failure raises
(modeled as `none`). -/
def time_to_minutes (t_str : List Char) : Option Int :=
  match (splitOnChar ':' t_str).map parse_int with
  | [some h, some m] => some (h * 60 + m)
  | _ => none

/-- `EnrollStudentView.parse_schedule`: parses a descriptor like
"Mon/Wed 10:00-11:30" into a list of slots; any parsing failure is caught and
yields the empty list. -/
def parse_schedule (schedule_str : String) : List Slot :=
  match splitOnChar ' ' schedule_str.toList with
  | days_part :: time_part :: _ =>
    match splitOnChar '-' time_part with
    | [start_str, end_str] =>
      match time_to_minutes start_str, time_to_minutes end_str with
      | some start_min, some end_min =>
        (splitOnChar '/' days_part).map fun day =>
          { day := String.mk day, start := start_min, stop := end_min }
      | _, _ => []
    | _ => []
  | _ => []

/-- `EnrollStudentView.check_conflict`: two parsed schedules conflict iff some
pair of slots shares a day and satisfies start1 < end2 and end1 > start2. -/
def check_conflict (schedule1 schedule2 : List Slot) : Bool :=
  schedule1.any fun slot1 => schedule2.any fun slot2 =>
    slot1.day == slot2.day
      && decide (slot1.start < slot2.stop) && decide (slot1.stop > slot2.start)

/-- A row of `courses.models.Section` (the fields the enrollment core reads). -/
structure CourseSection where
  id : Nat
  capacity : Nat
  semester : String
  schedule : String
  deriving DecidableEq

/-- A row of `enrollment.models.Enrollment` (the fields the core reads). -/
structure Enrollment where
  student : Nat
  sectionId : Nat
  deriving DecidableEq

/-- A row of `enrollment.models.Waitlist`. -/
structure WaitlistEntry where
  id : Nat
  student : Nat
  sectionId : Nat
  joined_at : Nat
  notified : Bool
  deriving DecidableEq

/-- A `send_mail` call made by `process_waitlist`. -/
inductive Mail where
  | conflictMail (student sectionId : Nat)
  | enrolledMail (student sectionId : Nat)
  deriving DecidableEq

/-- The database state visible to the enrollment core, plus the outbox of
emails sent and the primary-key counter for waitlist rows. -/
structure DB where
  sections : List CourseSection
  enrollments : List Enrollment
  waitlist : List WaitlistEntry
  outbox : List Mail
  nextWaitlistId : Nat
  deriving DecidableEq

/-- `Section.objects.get(id=section_id)` (first row with that id). -/
def findSection (db : DB) (sectionId : Nat) : Option CourseSection :=
  db.sections.find? fun s => s.id == sectionId

/-- `Enrollment.objects.filter(student=..., section=...).exists()`. -/
def hasEnrollment (db : DB) (student sectionId : Nat) : Bool :=
  db.enrollments.any fun e => e.student == student && e.sectionId == sectionId

/-- `Waitlist.objects.filter(student=..., section=...).exists()`. -/
def hasWaitlist (db : DB) (student sectionId : Nat) : Bool :=
  db.waitlist.any fun w => w.student == student && w.sectionId == sectionId

/-- `Enrollment.objects.filter(section=section).count()`. -/
def enrollmentCount (db : DB) (sectionId : Nat) : Nat :=
  (db.enrollments.filter fun e => e.sectionId == sectionId).length

/-- The sections of a student's existing enrollments restricted to one
semester: `Enrollment.objects.filter(student=..., section__semester=...)`,
projected to the joined section rows (the foreign key join drops an
enrollment whose section row is absent). -/
def studentSemesterSections (db : DB) (student : Nat) (semester : String) :
    List CourseSection :=
  (db.enrollments.filter fun e => e.student == student).filterMap fun e =>
    match findSection db e.sectionId with
    | some t => if t.semester == semester then some t else none
    | none => none

/-- The schedule-conflict scan shared by `EnrollStudentView.post` and
`process_waitlist`: parse the candidate section's schedule; when it parsed
non-empty, walk the student's same-semester enrollments and return the first
section whose parsed schedule conflicts. -/
def findConflict (db : DB) (student : Nat) (s : CourseSection) :
    Option CourseSection :=
  let new_schedule := parse_schedule s.schedule
  if new_schedule.isEmpty then none
  else (studentSemesterSections db student s.semester).find? fun t =>
    check_conflict new_schedule (parse_schedule t.schedule)

/-- The response of `EnrollStudentView.post`. -/
inductive EnrollResult where
  | sectionNotFound
  | alreadyEnrolled
  | alreadyWaitlisted
  | waitlisted (position : Nat)
  | scheduleConflict (conflictingSectionId : Nat)
  | enrolled
  deriving DecidableEq

/-- `EnrollStudentView.post` (views.py): lock the section row, check
already-enrolled, check already-waitlisted, check capacity (full sections
waitlist the student, reporting `Waitlist.objects.filter(section=...).count()`
after the insert as the position), then run the schedule-conflict scan, and
finally create the enrollment. `ts` is the `joined_at` timestamp a created
waitlist row receives. -/
def post (db : DB) (student sectionId ts : Nat) : EnrollResult × DB :=
  match findSection db sectionId with
  | none => (.sectionNotFound, db)
  | some s =>
    if hasEnrollment db student sectionId then (.alreadyEnrolled, db)
    else if hasWaitlist db student sectionId then (.alreadyWaitlisted, db)
    else if s.capacity ≤ enrollmentCount db sectionId then
      let entry : WaitlistEntry :=
        { id := db.nextWaitlistId, student := student, sectionId := sectionId,
          joined_at := ts, notified := false }
      let db' : DB :=
        { db with waitlist := db.waitlist ++ [entry],
                  nextWaitlistId := db.nextWaitlistId + 1 }
      let position := (db'.waitlist.filter fun w => w.sectionId == sectionId).length
      (.waitlisted position, db')
    else
      match findConflict db student s with
      | some t => (.scheduleConflict t.id, db)
      | none =>
        (.enrolled,
         { db with enrollments :=
             db.enrollments ++ [{ student := student, sectionId := sectionId }] })

/-- The response of `drop_course`. -/
inductive DropResult where
  | success
  | notEnrolled
  deriving DecidableEq

/-- `drop_course` (views.py): lock and delete the caller's enrollment for the
section, or fail when it is absent (`get_object_or_404`). The asynchronous
`process_waitlist.delay(section_id)` dispatched after the commit is modeled
as a separate later operation in an operation sequence. -/
def drop_course (db : DB) (student sectionId : Nat) : DropResult × DB :=
  if hasEnrollment db student sectionId then
    (.success,
     { db with enrollments := db.enrollments.filter fun e =>
         !(e.student == student && e.sectionId == sectionId) })
  else (.notEnrolled, db)

/-- The response of `leave_waitlist`. -/
inductive LeaveResult where
  | success
  | notFound
  deriving DecidableEq

/-- `leave_waitlist` (views.py): look up the waitlist row by primary key and
owner (`get_object_or_404(id=waitlist_id, student=request.user)`) and delete
it; absent row (or wrong owner) fails. -/
def leave_waitlist (db : DB) (waitlistId student : Nat) : LeaveResult × DB :=
  if db.waitlist.any (fun w => w.id == waitlistId && w.student == student) then
    (.success, { db with waitlist := db.waitlist.filter fun w => !(w.id == waitlistId) })
  else (.notFound, db)

/-- `Waitlist.objects.filter(section=section).first()` under the model's
`ordering = ['joined_at']`: the entry with the smallest `joined_at` among the
section's rows. The ORM leaves the order of equal timestamps unspecified;
this model resolves ties by insertion (primary-key) order. -/
def firstByJoinedAt : List WaitlistEntry → Option WaitlistEntry
  | [] => none
  | w :: ws =>
    match firstByJoinedAt ws with
    | none => some w
    | some b => if b.joined_at < w.joined_at then some b else some w

/-- Head of a section's waitlist queue (FIFO by join time). -/
def dequeueHead (db : DB) (sectionId : Nat) : Option WaitlistEntry :=
  firstByJoinedAt (db.waitlist.filter fun w => w.sectionId == sectionId)

/-- The outcome of the `process_waitlist` celery task. -/
inductive PromoteResult where
  | sectionNotFound
  | stillFull
  | emptyWaitlist
  | alreadyEnrolled
  | conflictSkipped (student : Nat)
  | promoted (student : Nat)
  deriving DecidableEq

/-- `process_waitlist` (tasks.py): under the section lock, recheck capacity;
take the FIFO head of the waitlist; drop a stale entry whose student is
already enrolled; rerun the schedule-conflict scan, on conflict deleting the
entry and mailing the student; otherwise create the enrollment, delete the
entry and mail the student — all inside one `transaction.atomic()` block. -/
def process_waitlist (db : DB) (sectionId : Nat) : PromoteResult × DB :=
  match findSection db sectionId with
  | none => (.sectionNotFound, db)
  | some s =>
    if s.capacity ≤ enrollmentCount db sectionId then (.stillFull, db)
    else
      match dequeueHead db sectionId with
      | none => (.emptyWaitlist, db)
      | some entry =>
        if hasEnrollment db entry.student sectionId then
          (.alreadyEnrolled,
           { db with waitlist := db.waitlist.filter fun w => !(w.id == entry.id) })
        else
          match findConflict db entry.student s with
          | some _ =>
            (.conflictSkipped entry.student,
             { db with
                 waitlist := db.waitlist.filter fun w => !(w.id == entry.id),
                 outbox := db.outbox ++ [.conflictMail entry.student sectionId] })
          | none =>
            (.promoted entry.student,
             { db with
                 enrollments := db.enrollments ++
                   [{ student := entry.student, sectionId := sectionId }],
                 waitlist := db.waitlist.filter fun w => !(w.id == entry.id),
                 outbox := db.outbox ++ [.enrolledMail entry.student sectionId] })

/-- `Waitlist.get_position` (models.py): one plus the number of rows for the
same section with a strictly earlier `joined_at`; `table` is the full
`Waitlist` table the ORM query ranges over. -/
def get_position (table : List WaitlistEntry) (w : WaitlistEntry) : Nat :=
  (table.filter fun e =>
    e.sectionId == w.sectionId && decide (e.joined_at < w.joined_at)).length + 1

/-- One invocation of a core operation. -/
inductive Op where
  | enroll (student sectionId ts : Nat)
  | drop (student sectionId : Nat)
  | leave (waitlistId student : Nat)
  | promote (sectionId : Nat)

/-- The state transition of one core operation. -/
def applyOp (db : DB) : Op → DB
  | .enroll student sectionId ts => (post db student sectionId ts).2
  | .drop student sectionId => (drop_course db student sectionId).2
  | .leave waitlistId student => (leave_waitlist db waitlistId student).2
  | .promote sectionId => (process_waitlist db sectionId).2

/-- A sequence of core operations, applied left to right. -/
def run (db : DB) (ops : List Op) : DB := ops.foldl applyOp db

/-- The (student, section) key of an enrollment row. -/
def epair (e : Enrollment) : Nat × Nat := (e.student, e.sectionId)

/-- The (student, section) key of a waitlist row. -/
def wpair (w : WaitlistEntry) : Nat × Nat := (w.student, w.sectionId)

/-- Well-formedness the database schema guarantees: section primary keys are
distinct, the two `unique_together ('student', 'section')` constraints hold,
waitlist primary keys are distinct and below the auto-increment counter. -/
def WF (db : DB) : Prop :=
  (db.sections.map CourseSection.id).Nodup ∧
  (db.enrollments.map epair).Nodup ∧
  (db.waitlist.map wpair).Nodup ∧
  (db.waitlist.map WaitlistEntry.id).Nodup ∧
  ∀ w ∈ db.waitlist, w.id < db.nextWaitlistId

/-- Capacity invariant: no section's enrollment count exceeds its capacity. -/
def CapInv (db : DB) : Prop :=
  ∀ s ∈ db.sections, enrollmentCount db s.id ≤ s.capacity

/-- Mutual-exclusion invariant: no student simultaneously holds an enrollment
and a waitlist entry for the same section. -/
def MutexInv (db : DB) : Prop :=
  ∀ e ∈ db.enrollments, hasWaitlist db e.student e.sectionId = false

/-- Frame invariant for the `notified` flag: every waitlist row has
`notified = false`. -/
def NotifiedInv (db : DB) : Prop :=
  ∀ w ∈ db.waitlist, w.notified = false

instance (db : DB) : Decidable (WF db) := by unfold WF; infer_instance
instance (db : DB) : Decidable (CapInv db) := by unfold CapInv; infer_instance
instance (db : DB) : Decidable (MutexInv db) := by unfold MutexInv; infer_instance
instance (db : DB) : Decidable (NotifiedInv db) := by unfold NotifiedInv; infer_instance


def secMon : CourseSection :=
  { id := 1, capacity := 1, semester := "F24", schedule := "Mon 10:00-11:30" }

def secMonLate : CourseSection :=
  { id := 2, capacity := 5, semester := "F24", schedule := "Mon 10:30-12:00" }

def dbEmpty : DB where
  sections := [secMon, secMonLate]
  enrollments := []
  waitlist := []
  outbox := []
  nextWaitlistId := 1

def demoOps : List Op :=
  [.enroll 10 1 0, .enroll 11 1 1, .enroll 11 2 2, .drop 10 1, .promote 1,
   .promote 1, .leave 1 11, .promote 2]

def secTwoSeats : CourseSection :=
  { id := 3, capacity := 2, semester := "F24", schedule := "" }

def dbTwoSeats : DB where
  sections := [secTwoSeats]
  enrollments := []
  waitlist :=
    [{ id := 1, student := 20, sectionId := 3, joined_at := 0, notified := false },
     { id := 2, student := 21, sectionId := 3, joined_at := 1, notified := false }]
  outbox := []
  nextWaitlistId := 3

def secOneSeat : CourseSection :=
  { id := 4, capacity := 1, semester := "F24", schedule := "" }

def dbOneSeat : DB where
  sections := [secOneSeat]
  enrollments := []
  waitlist :=
    [{ id := 1, student := 30, sectionId := 4, joined_at := 0, notified := false },
     { id := 2, student := 31, sectionId := 4, joined_at := 1, notified := false }]
  outbox := []
  nextWaitlistId := 3

def headEntry : WaitlistEntry :=
  { id := 4, student := 7, sectionId := 2, joined_at := 0, notified := false }

def dbConflictHead : DB where
  sections := [secMon, secMonLate]
  enrollments := [{ student := 7, sectionId := 1 }]
  waitlist := [headEntry]
  outbox := []
  nextWaitlistId := 5

def slotA : Slot := { day := "Mon", start := 600, stop := 690 }

def slotB : Slot := { day := "Mon", start := 690, stop := 750 }

def tieEntry1 : WaitlistEntry :=
  { id := 1, student := 1, sectionId := 9, joined_at := 5, notified := false }

def tieEntry2 : WaitlistEntry :=
  { id := 2, student := 2, sectionId := 9, joined_at := 5, notified := false }

def tieTable : List WaitlistEntry := [tieEntry1, tieEntry2]

def posEntry1 : WaitlistEntry :=
  { id := 1, student := 1, sectionId := 9, joined_at := 3, notified := false }

def posEntry2 : WaitlistEntry :=
  { id := 2, student := 2, sectionId := 9, joined_at := 5, notified := false }

def posTable : List WaitlistEntry := [posEntry1, posEntry2]

/-- Outcome of acquiring the section row lock at the storage layer. -/
inductive LockOutcome where
  | acquired
  | timeout
  deriving DecidableEq

/-- The try/except wrapping of EnrollStudentView.post: the whole transaction
body runs once inside a single try block whose except clause returns an error
response; no code path re-runs the body, so a lock timeout raised while
acquiring the section row lock is surfaced immediately. The result's third
component counts how many times the body was attempted. -/
def postHandler (db : DB) (student sectionId ts : Nat) (lock : LockOutcome) :
    Option EnrollResult × DB × Nat :=
  match lock with
  | .timeout => (none, db, 1)
  | .acquired =>
    (some (post db student sectionId ts).1, (post db student sectionId ts).2, 1)

/-- The try/except wrapping of drop_course, in the same shape as postHandler:
one attempt, the except clause surfaces the error immediately. -/
def dropHandler (db : DB) (student sectionId : Nat) (lock : LockOutcome) :
    Option DropResult × DB × Nat :=
  match lock with
  | .timeout => (none, db, 1)
  | .acquired =>
    (some (drop_course db student sectionId).1, (drop_course db student sectionId).2, 1)

/-! ## Theorems -/

theorem hasEnrollment_eq_true_iff {db : DB} {st sid : Nat} :
    hasEnrollment db st sid = true ↔
      ∃ e ∈ db.enrollments, e.student = st ∧ e.sectionId = sid := by
  simp [hasEnrollment, List.any_eq_true, Bool.and_eq_true, beq_iff_eq]

theorem hasWaitlist_eq_true_iff {db : DB} {st sid : Nat} :
    hasWaitlist db st sid = true ↔
      ∃ w ∈ db.waitlist, w.student = st ∧ w.sectionId = sid := by
  simp [hasWaitlist, List.any_eq_true, Bool.and_eq_true, beq_iff_eq]

theorem findSection_mem {db : DB} {sid : Nat} {s : CourseSection}
    (h : findSection db sid = some s) : s ∈ db.sections ∧ s.id = sid := by
  refine ⟨List.mem_of_find?_eq_some h, ?_⟩
  have := List.find?_some h
  simpa [beq_iff_eq] using this

theorem findSection_eq_of_mem {db : DB} {sid : Nat} {s t : CourseSection}
    (hnd : (db.sections.map CourseSection.id).Nodup)
    (h : findSection db sid = some s) (ht : t ∈ db.sections) (hid : t.id = sid) :
    t = s := by
  obtain ⟨hsmem, hsid⟩ := findSection_mem h
  exact List.inj_on_of_nodup_map hnd ht hsmem (by rw [hid, hsid])

theorem firstByJoinedAt_mem {l : List WaitlistEntry} {w : WaitlistEntry}
    (h : firstByJoinedAt l = some w) : w ∈ l := by
  induction l with
  | nil => simp [firstByJoinedAt] at h
  | cons x xs ih =>
    simp only [firstByJoinedAt] at h
    cases hx : firstByJoinedAt xs with
    | none => rw [hx] at h; simp at h; simp [h]
    | some b =>
      rw [hx] at h
      by_cases hb : b.joined_at < x.joined_at
      · simp [hb] at h
        subst h
        exact List.mem_cons_of_mem _ (ih hx)
      · simp [hb] at h
        subst h
        exact List.mem_cons_self _ _

theorem dequeueHead_mem {db : DB} {sid : Nat} {entry : WaitlistEntry}
    (h : dequeueHead db sid = some entry) :
    entry ∈ db.waitlist ∧ entry.sectionId = sid := by
  have hm := firstByJoinedAt_mem h
  have := List.mem_filter.mp hm
  exact ⟨this.1, by simpa [beq_iff_eq] using this.2⟩

theorem enrollmentCount_append (db : DB) (e : Enrollment) (x : Nat) :
    enrollmentCount { db with enrollments := db.enrollments ++ [e] } x =
      enrollmentCount db x + (if e.sectionId = x then 1 else 0) := by
  by_cases h : e.sectionId = x <;>
    simp [enrollmentCount, List.filter_append, h]

theorem enrollmentCount_filter_le (db : DB) (p : Enrollment → Bool) (x : Nat) :
    enrollmentCount { db with enrollments := db.enrollments.filter p } x ≤
      enrollmentCount db x := by
  simp only [enrollmentCount]
  exact List.Sublist.length_le (List.Sublist.filter _ (List.filter_sublist db.enrollments))


theorem post_cases (db : DB) (st sid ts : Nat) :
    (post db st sid ts).2 = db ∨
    (hasEnrollment db st sid = false ∧ hasWaitlist db st sid = false ∧
      (post db st sid ts).2 =
        { db with
            waitlist := db.waitlist ++
              [{ id := db.nextWaitlistId, student := st, sectionId := sid,
                 joined_at := ts, notified := false }],
            nextWaitlistId := db.nextWaitlistId + 1 }) ∨
    (∃ s, findSection db sid = some s ∧ enrollmentCount db sid < s.capacity ∧
      hasEnrollment db st sid = false ∧ hasWaitlist db st sid = false ∧
      (post db st sid ts).2 =
        { db with enrollments := db.enrollments ++ [{ student := st, sectionId := sid }] }) := by
  unfold post
  cases hfs : findSection db sid with
  | none => exact Or.inl rfl
  | some s =>
    by_cases he : hasEnrollment db st sid = true
    · simp [he]
    · rw [Bool.not_eq_true] at he
      by_cases hw : hasWaitlist db st sid = true
      · simp [he, hw]
      · rw [Bool.not_eq_true] at hw
        by_cases hc : s.capacity ≤ enrollmentCount db sid
        · refine Or.inr (Or.inl ⟨he, hw, ?_⟩)
          simp [he, hw, hc]
        · cases hcf : findConflict db st s with
          | some t => simp [he, hw, hc, hcf]
          | none =>
            refine Or.inr (Or.inr ⟨s, rfl, by omega, he, hw, ?_⟩)
            simp [he, hw, hc, hcf]

theorem drop_cases (db : DB) (st sid : Nat) :
    (drop_course db st sid).2 = db ∨
    (drop_course db st sid).2 =
      { db with enrollments := db.enrollments.filter fun e =>
          !(e.student == st && e.sectionId == sid) } := by
  unfold drop_course
  split <;> simp

theorem leave_cases (db : DB) (wid st : Nat) :
    (leave_waitlist db wid st).2 = db ∨
    (leave_waitlist db wid st).2 =
      { db with waitlist := db.waitlist.filter fun w => !(w.id == wid) } := by
  unfold leave_waitlist
  split <;> simp

theorem process_waitlist_cases (db : DB) (sid : Nat) :
    (process_waitlist db sid).2 = db ∨
    (∃ entry, dequeueHead db sid = some entry ∧
      ((process_waitlist db sid).2 =
         { db with waitlist := db.waitlist.filter fun w => !(w.id == entry.id) } ∨
       (process_waitlist db sid).2 =
         { db with waitlist := db.waitlist.filter fun w => !(w.id == entry.id),
                   outbox := db.outbox ++ [.conflictMail entry.student sid] } ∨
       (∃ s, findSection db sid = some s ∧ enrollmentCount db sid < s.capacity ∧
         hasEnrollment db entry.student sid = false ∧
         (process_waitlist db sid).2 =
           { db with
               enrollments := db.enrollments ++
                 [{ student := entry.student, sectionId := sid }],
               waitlist := db.waitlist.filter fun w => !(w.id == entry.id),
               outbox := db.outbox ++ [.enrolledMail entry.student sid] }))) := by
  unfold process_waitlist
  cases hfs : findSection db sid with
  | none => exact Or.inl rfl
  | some s =>
    by_cases hc : s.capacity ≤ enrollmentCount db sid
    · simp [hc]
    · cases hq : dequeueHead db sid with
      | none => simp [hc, hq]
      | some entry =>
        by_cases he : hasEnrollment db entry.student sid = true
        · refine Or.inr ⟨entry, rfl, Or.inl ?_⟩
          simp [hc, hq, he]
        · rw [Bool.not_eq_true] at he
          cases hcf : findConflict db entry.student s with
          | some t =>
            refine Or.inr ⟨entry, rfl, Or.inr (Or.inl ?_)⟩
            simp [hc, hq, he, hcf]
          | none =>
            refine Or.inr ⟨entry, rfl, Or.inr (Or.inr ⟨s, rfl, by omega, he, ?_⟩)⟩
            simp [hc, hq, he, hcf]

theorem sections_applyOp (db : DB) (op : Op) :
    (applyOp db op).sections = db.sections := by
  cases op with
  | enroll st sid ts =>
    rcases post_cases db st sid ts with h | ⟨_, _, h⟩ | ⟨s, _, _, _, _, h⟩ <;>
      simp [applyOp, h]
  | drop st sid =>
    rcases drop_cases db st sid with h | h <;> simp [applyOp, h]
  | leave wid st =>
    rcases leave_cases db wid st with h | h <;> simp [applyOp, h]
  | promote sid =>
    rcases process_waitlist_cases db sid with h | ⟨e, _, h | h | ⟨s, _, _, _, h⟩⟩ <;>
      simp [applyOp, h]


theorem nodup_append_singleton {α : Type} {l : List α} {a : α}
    (h : l.Nodup) (ha : a ∉ l) : (l ++ [a]).Nodup := by
  simp [List.nodup_append, h, ha]

theorem nodup_map_filter {α β : Type} (f : α → β) (p : α → Bool) {l : List α}
    (h : (l.map f).Nodup) : ((l.filter p).map f).Nodup :=
  List.Nodup.sublist (List.Sublist.map f (List.filter_sublist l)) h

theorem wpair_not_mem_of_hasWaitlist_false {db : DB} {st sid : Nat}
    (h : hasWaitlist db st sid = false) :
    (st, sid) ∉ db.waitlist.map wpair := by
  intro hmem
  rw [List.mem_map] at hmem
  obtain ⟨w, hw, hpair⟩ := hmem
  have : hasWaitlist db st sid = true := by
    refine hasWaitlist_eq_true_iff.mpr ⟨w, hw, ?_⟩
    simpa [wpair, Prod.ext_iff] using hpair
  rw [h] at this
  cases this

theorem epair_not_mem_of_hasEnrollment_false {db : DB} {st sid : Nat}
    (h : hasEnrollment db st sid = false) :
    (st, sid) ∉ db.enrollments.map epair := by
  intro hmem
  rw [List.mem_map] at hmem
  obtain ⟨e, he, hpair⟩ := hmem
  have : hasEnrollment db st sid = true := by
    refine hasEnrollment_eq_true_iff.mpr ⟨e, he, ?_⟩
    simpa [epair, Prod.ext_iff] using hpair
  rw [h] at this
  cases this

theorem wf_applyOp {db : DB} (hwf : WF db) (op : Op) : WF (applyOp db op) := by
  obtain ⟨h1, h2, h3, h4, h5⟩ := hwf
  have wlfilter : ∀ p : WaitlistEntry → Bool, WF { db with waitlist := db.waitlist.filter p } := by
    intro p
    refine ⟨h1, h2, nodup_map_filter _ _ h3, nodup_map_filter _ _ h4, ?_⟩
    intro w hw
    exact h5 w (List.mem_of_mem_filter hw)
  cases op with
  | enroll st sid ts =>
    rcases post_cases db st sid ts with h | ⟨he, hw, h⟩ | ⟨s, hs, hc, he, hwl, h⟩
    · simp only [applyOp, h]; exact ⟨h1, h2, h3, h4, h5⟩
    · simp only [applyOp, h]
      refine ⟨h1, h2, ?_, ?_, ?_⟩
      · rw [List.map_append]
        exact nodup_append_singleton h3 (wpair_not_mem_of_hasWaitlist_false hw)
      · rw [List.map_append]
        refine nodup_append_singleton h4 ?_
        intro hmem
        rw [List.mem_map] at hmem
        obtain ⟨w, hwm, hid⟩ := hmem
        have := h5 w hwm
        simp only [hid] at this
        omega
      · intro w hwm
        rcases List.mem_append.mp hwm with h' | h'
        · exact Nat.lt_succ_of_lt (h5 w h')
        · simp only [List.mem_singleton] at h'
          subst h'
          exact Nat.lt_succ_self _
    · simp only [applyOp, h]
      refine ⟨h1, ?_, h3, h4, h5⟩
      rw [List.map_append]
      exact nodup_append_singleton h2 (epair_not_mem_of_hasEnrollment_false he)
  | drop st sid =>
    rcases drop_cases db st sid with h | h
    · simp only [applyOp, h]; exact ⟨h1, h2, h3, h4, h5⟩
    · simp only [applyOp, h]
      exact ⟨h1, nodup_map_filter _ _ h2, h3, h4, h5⟩
  | leave wid st =>
    rcases leave_cases db wid st with h | h
    · simp only [applyOp, h]; exact ⟨h1, h2, h3, h4, h5⟩
    · simp only [applyOp, h]
      exact wlfilter _
  | promote sid =>
    rcases process_waitlist_cases db sid with h | ⟨entry, hq, h | h | ⟨s, hs, hc, he, h⟩⟩
    · simp only [applyOp, h]; exact ⟨h1, h2, h3, h4, h5⟩
    · simp only [applyOp, h]; exact wlfilter _
    · simp only [applyOp, h]
      obtain ⟨g1, g2, g3, g4, g5⟩ := wlfilter fun w => !(w.id == entry.id)
      exact ⟨g1, g2, g3, g4, g5⟩
    · simp only [applyOp, h]
      refine ⟨h1, ?_, nodup_map_filter _ _ h3, nodup_map_filter _ _ h4, ?_⟩
      · rw [List.map_append]
        exact nodup_append_singleton h2 (epair_not_mem_of_hasEnrollment_false he)
      · intro w hw
        exact h5 w (List.mem_of_mem_filter hw)


theorem enrollmentCount_of_append {db db' : DB} {e : Enrollment}
    (h : db'.enrollments = db.enrollments ++ [e]) (x : Nat) :
    enrollmentCount db' x =
      enrollmentCount db x + (if e.sectionId = x then 1 else 0) := by
  by_cases hx : e.sectionId = x <;>
    simp [enrollmentCount, h, List.filter_append, hx]

theorem enrollmentCount_of_filter_le {db db' : DB} {p : Enrollment → Bool}
    (h : db'.enrollments = db.enrollments.filter p) (x : Nat) :
    enrollmentCount db' x ≤ enrollmentCount db x := by
  simp only [enrollmentCount, h]
  exact List.Sublist.length_le
    (List.Sublist.filter _ (List.filter_sublist db.enrollments))

theorem capInv_applyOp {db : DB} (hwf : WF db) (hcap : CapInv db) (op : Op) :
    CapInv (applyOp db op) := by
  obtain ⟨h1, _, _, _, _⟩ := hwf
  have append_case :
      ∀ (db' : DB) (st : Nat) (s : CourseSection) (sid : Nat),
        findSection db sid = some s → enrollmentCount db sid < s.capacity →
        db'.sections = db.sections →
        db'.enrollments = db.enrollments ++ [{ student := st, sectionId := sid }] →
        CapInv db' := by
    intro db' st s sid hs hlt hsec henr t ht
    rw [hsec] at ht
    rw [enrollmentCount_of_append henr]
    by_cases hid : sid = t.id
    · have hts : t = s := findSection_eq_of_mem h1 hs ht hid.symm
      subst hts
      rw [← hid]
      have hone : (if sid = sid then 1 else 0) = 1 := if_pos rfl
      rw [hone]
      omega
    · rw [if_neg hid, Nat.add_zero]
      exact hcap t ht
  cases op with
  | enroll st sid ts =>
    rcases post_cases db st sid ts with h | ⟨_, _, h⟩ | ⟨s, hs, hlt, _, _, h⟩
    · simp only [applyOp, h]; exact hcap
    · simp only [applyOp, h]
      intro t ht
      exact hcap t ht
    · exact append_case _ st s sid hs hlt (by rw [applyOp, h]) (by rw [applyOp, h])
  | drop st sid =>
    rcases drop_cases db st sid with h | h
    · simp only [applyOp, h]; exact hcap
    · simp only [applyOp, h]
      intro t ht
      have hle : enrollmentCount
          { db with enrollments := db.enrollments.filter fun e =>
              !(e.student == st && e.sectionId == sid) } t.id ≤
            enrollmentCount db t.id :=
        enrollmentCount_of_filter_le rfl t.id
      exact le_trans hle (hcap t ht)
  | leave wid st =>
    rcases leave_cases db wid st with h | h <;>
      · simp only [applyOp, h]; exact hcap
  | promote sid =>
    rcases process_waitlist_cases db sid with h | ⟨entry, hq, h | h | ⟨s, hs, hlt, _, h⟩⟩
    · simp only [applyOp, h]; exact hcap
    · simp only [applyOp, h]; exact hcap
    · simp only [applyOp, h]; exact hcap
    · exact append_case _ entry.student s sid hs hlt (by rw [applyOp, h]) (by rw [applyOp, h])


theorem any_filter_false {α : Type} {l : List α} {q : α → Bool} (p : α → Bool)
    (h : l.any q = false) : (l.filter p).any q = false := by
  rw [Bool.eq_false_iff] at h ⊢
  intro ht
  apply h
  rw [List.any_eq_true] at ht ⊢
  obtain ⟨x, hx, hq⟩ := ht
  exact ⟨x, List.mem_of_mem_filter hx, hq⟩

theorem mutexInv_applyOp {db : DB} (hwf : WF db) (hm : MutexInv db) (op : Op) :
    MutexInv (applyOp db op) := by
  obtain ⟨_, _, h3, _, _⟩ := hwf
  cases op with
  | enroll st sid ts =>
    rcases post_cases db st sid ts with h | ⟨he, hw, h⟩ | ⟨s, _, _, he, hw, h⟩
    · simp only [applyOp, h]; exact hm
    · simp only [applyOp, h]
      intro e hemem
      simp only [hasWaitlist, List.any_append, List.any_cons, List.any_nil,
        Bool.or_false, Bool.or_eq_false_iff]
      refine ⟨hm e hemem, ?_⟩
      rw [Bool.and_eq_false_iff]
      by_cases hst : st = e.student
      · by_cases hsec : sid = e.sectionId
        · exfalso
          have : hasEnrollment db st sid = true :=
            hasEnrollment_eq_true_iff.mpr ⟨e, hemem, hst.symm, hsec.symm⟩
          rw [he] at this
          cases this
        · right; simpa [beq_iff_eq] using hsec
      · left; simpa [beq_iff_eq] using hst
    · simp only [applyOp, h]
      intro e hemem
      rcases List.mem_append.mp hemem with hold | hnew
      · exact hm e hold
      · simp only [List.mem_singleton] at hnew
        subst hnew
        exact hw
  | drop st sid =>
    rcases drop_cases db st sid with h | h
    · simp only [applyOp, h]; exact hm
    · simp only [applyOp, h]
      intro e hemem
      exact hm e (List.mem_of_mem_filter hemem)
  | leave wid st =>
    rcases leave_cases db wid st with h | h
    · simp only [applyOp, h]; exact hm
    · simp only [applyOp, h]
      intro e hemem
      exact any_filter_false _ (hm e hemem)
  | promote sid =>
    rcases process_waitlist_cases db sid with h | ⟨entry, hq, h | h | ⟨s, _, _, he, h⟩⟩
    · simp only [applyOp, h]; exact hm
    · simp only [applyOp, h]
      intro e hemem
      exact any_filter_false _ (hm e hemem)
    · simp only [applyOp, h]
      intro e hemem
      exact any_filter_false _ (hm e hemem)
    · simp only [applyOp, h]
      intro e hemem
      rcases List.mem_append.mp hemem with hold | hnew
      · exact any_filter_false _ (hm e hold)
      · simp only [List.mem_singleton] at hnew
        subst hnew
        obtain ⟨hqmem, hqsec⟩ := dequeueHead_mem hq
        rw [Bool.eq_false_iff]
        intro ht
        obtain ⟨w, hwmem, hwst, hwsec⟩ := hasWaitlist_eq_true_iff.mp ht
        have hwmem' := List.mem_filter.mp hwmem
        have hwid : ¬ (w.id = entry.id) := by
          simpa [beq_iff_eq] using hwmem'.2
        have hweq : w = entry := by
          refine List.inj_on_of_nodup_map h3 hwmem'.1 hqmem ?_
          simp only [wpair, Prod.mk.injEq]
          exact ⟨by simpa using hwst, by rw [hwsec, hqsec]⟩
        exact hwid (by rw [hweq])
  
theorem notifiedInv_applyOp {db : DB} (hn : NotifiedInv db) (op : Op) :
    NotifiedInv (applyOp db op) := by
  cases op with
  | enroll st sid ts =>
    rcases post_cases db st sid ts with h | ⟨_, _, h⟩ | ⟨s, _, _, _, _, h⟩
    · simp only [applyOp, h]; exact hn
    · simp only [applyOp, h]
      intro w hw
      rcases List.mem_append.mp hw with hold | hnew
      · exact hn w hold
      · simp only [List.mem_singleton] at hnew
        subst hnew
        rfl
    · simp only [applyOp, h]; exact hn
  | drop st sid =>
    rcases drop_cases db st sid with h | h <;>
      · simp only [applyOp, h]; exact hn
  | leave wid st =>
    rcases leave_cases db wid st with h | h
    · simp only [applyOp, h]; exact hn
    · simp only [applyOp, h]
      intro w hw
      exact hn w (List.mem_of_mem_filter hw)
  | promote sid =>
    rcases process_waitlist_cases db sid with h | ⟨entry, hq, h | h | ⟨s, _, _, _, h⟩⟩ <;>
      simp only [applyOp, h] <;>
      first
        | exact hn
        | · intro w hw
            exact hn w (List.mem_of_mem_filter hw)


theorem wf_run {db : DB} (hwf : WF db) (ops : List Op) : WF (run db ops) := by
  induction ops generalizing db with
  | nil => exact hwf
  | cons op rest ih => exact ih (wf_applyOp hwf op)

theorem capInv_run {db : DB} (hwf : WF db) (hcap : CapInv db) (ops : List Op) :
    CapInv (run db ops) := by
  induction ops generalizing db with
  | nil => exact hcap
  | cons op rest ih => exact ih (wf_applyOp hwf op) (capInv_applyOp hwf hcap op)

theorem mutexInv_run {db : DB} (hwf : WF db) (hm : MutexInv db) (ops : List Op) :
    MutexInv (run db ops) := by
  induction ops generalizing db with
  | nil => exact hm
  | cons op rest ih => exact ih (wf_applyOp hwf op) (mutexInv_applyOp hwf hm op)

theorem notifiedInv_run {db : DB} (hn : NotifiedInv db) (ops : List Op) :
    NotifiedInv (run db ops) := by
  induction ops generalizing db with
  | nil => exact hn
  | cons op rest ih => exact ih (notifiedInv_applyOp hn op)

theorem sections_run (db : DB) (ops : List Op) :
    (run db ops).sections = db.sections := by
  induction ops generalizing db with
  | nil => rfl
  | cons op rest ih => exact (ih (applyOp db op)).trans (sections_applyOp db op)

theorem findSection_congr {db db' : DB} (h : db'.sections = db.sections) (x : Nat) :
    findSection db' x = findSection db x := by
  simp only [findSection, h]

theorem process_waitlist_full {db : DB} {sid : Nat} {s : CourseSection}
    (hs : findSection db sid = some s)
    (hfull : s.capacity ≤ enrollmentCount db sid) :
    process_waitlist db sid = (.stillFull, db) := by
  unfold process_waitlist
  rw [hs]
  simp [hfull]


theorem process_waitlist_len_le (db : DB) (sid : Nat) :
    (process_waitlist db sid).2.enrollments.length ≤ db.enrollments.length + 1 := by
  rcases process_waitlist_cases db sid with h | ⟨e, _, h | h | ⟨s, _, _, _, h⟩⟩ <;>
    rw [h] <;> simp

/-- Claim C2: starting from a well-formed state satisfying the capacity invariant,
any sequence of core operations preserves it, and the operations never touch
the sections table (so each section's capacity is unchanged). -/
theorem enrollment_count_le_capacity (db : DB) (ops : List Op)
    (hwf : WF db) (hcap : CapInv db) :
    CapInv (run db ops) ∧ (run db ops).sections = db.sections :=
  ⟨capInv_run hwf hcap ops, sections_run db ops⟩

theorem enrollment_count_le_capacity_witness :
    WF dbEmpty ∧ CapInv dbEmpty ∧
      (CapInv (run dbEmpty demoOps) ∧ (run dbEmpty demoOps).sections = dbEmpty.sections) :=
  ⟨by decide, by decide, enrollment_count_le_capacity dbEmpty demoOps (by decide) (by decide)⟩

/-- Claim C3: starting from a well-formed state in which no student holds both an
enrollment and a waitlist entry for the same section, no sequence of core
operations can create such a pair. -/
theorem no_enrollment_and_waitlist_coexist (db : DB) (ops : List Op)
    (hwf : WF db) (hm : MutexInv db) : MutexInv (run db ops) :=
  mutexInv_run hwf hm ops

theorem no_enrollment_and_waitlist_coexist_witness :
    WF dbEmpty ∧ MutexInv dbEmpty ∧ MutexInv (run dbEmpty demoOps) :=
  ⟨by decide, by decide,
   no_enrollment_and_waitlist_coexist dbEmpty demoOps (by decide) (by decide)⟩

/-- Claim C9: no core operation mutates the notified flag: if every waitlist entry
has notified = false (as every entry created by enroll does), this stays true
under any sequence of core operations. -/
theorem notified_flag_never_mutated (db : DB) (ops : List Op)
    (hn : NotifiedInv db) : NotifiedInv (run db ops) :=
  notifiedInv_run hn ops

theorem notified_flag_never_mutated_witness :
    NotifiedInv dbEmpty ∧ NotifiedInv (run dbEmpty demoOps) :=
  ⟨by decide, notified_flag_never_mutated dbEmpty demoOps (by decide)⟩

/-- Claim C5 counterexample: with two free seats and two waiting students, two
successive invocations of process_waitlist each perform a promotion, so two
waitlist entries are converted into enrollments across the two invocations,
contradicting at-most-one-promotion regardless of free seats. -/
theorem promote_twice_two_promotions_counterexample :
    dbTwoSeats.enrollments.length = 0 ∧
    (process_waitlist dbTwoSeats 3).1 = .promoted 20 ∧
    (process_waitlist (process_waitlist dbTwoSeats 3).2 3).1 = .promoted 21 ∧
    (process_waitlist (process_waitlist dbTwoSeats 3).2 3).2.enrollments.length = 2 := by
  decide

/-- Claim C5 amended: each process_waitlist invocation performs at most one
promotion; when at most one seat is free before the first invocation, two
successive invocations with no intervening drop perform at most one
promotion in total. -/
theorem promote_twice_at_most_one_promotion (db : DB) (sid : Nat)
    (s : CourseSection) (hs : findSection db sid = some s)
    (hone : s.capacity ≤ enrollmentCount db sid + 1) :
    (run db [.promote sid, .promote sid]).enrollments.length ≤
      db.enrollments.length + 1 := by
  simp only [run, List.foldl, applyOp]
  rcases process_waitlist_cases db sid with h1 | ⟨e1, hq1, h1 | h1 | ⟨s1, hs1, hlt1, he1, h1⟩⟩
  · rw [h1]
    exact process_waitlist_len_le db sid
  · have hlen : (process_waitlist db sid).2.enrollments.length = db.enrollments.length := by
      rw [h1]
    calc (process_waitlist (process_waitlist db sid).2 sid).2.enrollments.length
        ≤ (process_waitlist db sid).2.enrollments.length + 1 :=
          process_waitlist_len_le _ sid
      _ = db.enrollments.length + 1 := by rw [hlen]
  · have hlen : (process_waitlist db sid).2.enrollments.length = db.enrollments.length := by
      rw [h1]
    calc (process_waitlist (process_waitlist db sid).2 sid).2.enrollments.length
        ≤ (process_waitlist db sid).2.enrollments.length + 1 :=
          process_waitlist_len_le _ sid
      _ = db.enrollments.length + 1 := by rw [hlen]
  · have hsec : (process_waitlist db sid).2.sections = db.sections := by rw [h1]
    have hfs1 : findSection (process_waitlist db sid).2 sid = some s :=
      (findSection_congr hsec sid).trans hs
    have hcnt : enrollmentCount (process_waitlist db sid).2 sid =
        enrollmentCount db sid + 1 := by
      have henr : (process_waitlist db sid).2.enrollments =
          db.enrollments ++ [{ student := e1.student, sectionId := sid }] := by
        rw [h1]
      have happ := enrollmentCount_of_append henr sid
      simpa using happ
    have hfull : s.capacity ≤ enrollmentCount (process_waitlist db sid).2 sid := by
      omega
    rw [process_waitlist_full hfs1 hfull, h1]
    simp

theorem promote_twice_at_most_one_promotion_witness :
    findSection dbOneSeat 4 = some secOneSeat ∧
    secOneSeat.capacity ≤ enrollmentCount dbOneSeat 4 + 1 ∧
    (run dbOneSeat [.promote 4, .promote 4]).enrollments.length ≤
      dbOneSeat.enrollments.length + 1 :=
  ⟨by decide, by decide,
   promote_twice_at_most_one_promotion dbOneSeat 4 secOneSeat (by decide) (by decide)⟩


/-- Claim C1: when the section exists and the caller holds neither an enrollment
nor a waitlist entry for it, the capacity check comes first: a full section
waitlists the student (entry created, position returned, enrollments
untouched) with no schedule-conflict check performed, and only a non-full
section runs the conflict scan, failing with the conflicting section's id and
no side effect, or else creating the enrollment. -/
theorem enroll_checks_in_order (db : DB) (st sid ts : Nat) (s : CourseSection)
    (hs : findSection db sid = some s)
    (he : hasEnrollment db st sid = false)
    (hw : hasWaitlist db st sid = false) :
    (s.capacity ≤ enrollmentCount db sid →
      post db st sid ts =
        (.waitlisted
           ((db.waitlist.filter fun w => w.sectionId == sid).length + 1),
         { db with
             waitlist := db.waitlist ++
               [{ id := db.nextWaitlistId, student := st, sectionId := sid,
                  joined_at := ts, notified := false }],
             nextWaitlistId := db.nextWaitlistId + 1 })) ∧
    (enrollmentCount db sid < s.capacity →
      (∀ t, findConflict db st s = some t →
        post db st sid ts = (.scheduleConflict t.id, db)) ∧
      (findConflict db st s = none →
        post db st sid ts =
          (.enrolled,
           { db with enrollments :=
               db.enrollments ++ [{ student := st, sectionId := sid }] }))) := by
  constructor
  · intro hfull
    unfold post
    rw [hs]
    simp [he, hw, hfull, List.filter_append]
  · intro hlt
    constructor
    · intro t hcf
      unfold post
      rw [hs]
      simp [he, hw, Nat.not_le.mpr hlt, hcf]
    · intro hcf
      unfold post
      rw [hs]
      simp [he, hw, Nat.not_le.mpr hlt, hcf]

theorem enroll_checks_in_order_witness :
    findSection dbEmpty 1 = some secMon ∧
    hasEnrollment dbEmpty 5 1 = false ∧
    hasWaitlist dbEmpty 5 1 = false ∧
    enrollmentCount dbEmpty 1 < secMon.capacity ∧
    findConflict dbEmpty 5 secMon = none ∧
    post dbEmpty 5 1 0 =
      (.enrolled,
       { dbEmpty with enrollments :=
           dbEmpty.enrollments ++ [{ student := 5, sectionId := 1 }] }) :=
  ⟨by decide, by decide, by decide, by decide, by decide,
   ((enroll_checks_in_order dbEmpty 5 1 0 secMon (by decide) (by decide)
       (by decide)).2 (by decide)).2 (by decide)⟩

/-- Claim C6: when a seat is free and the head-of-queue student has a schedule
conflict with a committed same-semester enrollment, process_waitlist removes
exactly that waitlist entry, creates no enrollment, records one conflict
notification, and terminates without touching the rest of the queue. -/
theorem promote_conflict_skips_head_only (db : DB) (sid : Nat)
    (s : CourseSection) (entry : WaitlistEntry) (t : CourseSection)
    (hs : findSection db sid = some s)
    (hcap : enrollmentCount db sid < s.capacity)
    (hq : dequeueHead db sid = some entry)
    (he : hasEnrollment db entry.student sid = false)
    (hcf : findConflict db entry.student s = some t) :
    process_waitlist db sid =
      (.conflictSkipped entry.student,
       { db with
           waitlist := db.waitlist.filter fun w => !(w.id == entry.id),
           outbox := db.outbox ++ [.conflictMail entry.student sid] }) := by
  unfold process_waitlist
  rw [hs]
  simp [Nat.not_le.mpr hcap, hq, he, hcf]

theorem promote_conflict_skips_head_only_witness :
    findSection dbConflictHead 2 = some secMonLate ∧
    enrollmentCount dbConflictHead 2 < secMonLate.capacity ∧
    dequeueHead dbConflictHead 2 = some headEntry ∧
    hasEnrollment dbConflictHead headEntry.student 2 = false ∧
    findConflict dbConflictHead headEntry.student secMonLate = some secMon ∧
    process_waitlist dbConflictHead 2 =
      (.conflictSkipped headEntry.student,
       { dbConflictHead with
           waitlist := dbConflictHead.waitlist.filter fun w => !(w.id == headEntry.id),
           outbox := dbConflictHead.outbox ++
             [.conflictMail headEntry.student 2] }) :=
  ⟨by decide, by decide, by decide, by decide, by decide,
   promote_conflict_skips_head_only dbConflictHead 2 secMonLate headEntry secMon
     (by decide) (by decide) (by decide) (by decide) (by decide)⟩

theorem check_conflict_eq_true_iff (A B : List Slot) :
    check_conflict A B = true ↔
      ∃ x ∈ A, ∃ y ∈ B, x.day = y.day ∧ x.start < y.stop ∧ y.start < x.stop := by
  simp [check_conflict, List.any_eq_true, Bool.and_eq_true, beq_iff_eq,
    decide_eq_true_eq, and_assoc]

/-- Claim C7: check_conflict returns true iff some pair of slots, one from each
schedule, shares a day and satisfies startA < endB and endA > startB; an
empty slot list conflicts with nothing, and two slots that merely touch at an
endpoint do not conflict. -/
theorem check_conflict_spec (A B : List Slot) (a b : Slot)
    (hab : a.stop = b.start) :
    (check_conflict A B = true ↔
      ∃ x ∈ A, ∃ y ∈ B, x.day = y.day ∧ x.start < y.stop ∧ y.start < x.stop) ∧
    check_conflict [] B = false ∧
    check_conflict A [] = false ∧
    check_conflict [a] [b] = false := by
  refine ⟨check_conflict_eq_true_iff A B, rfl, by simp [check_conflict], ?_⟩
  rw [Bool.eq_false_iff]
  intro h
  rw [check_conflict_eq_true_iff] at h
  obtain ⟨x, hx, y, hy, _, h1, h2⟩ := h
  simp only [List.mem_singleton] at hx hy
  subst hx
  subst hy
  omega

theorem check_conflict_spec_witness :
    slotA.stop = slotB.start ∧
    ((check_conflict [slotA] [slotB] = true ↔
      ∃ x ∈ [slotA], ∃ y ∈ [slotB],
        x.day = y.day ∧ x.start < y.stop ∧ y.start < x.stop) ∧
     check_conflict [] [slotB] = false ∧
     check_conflict [slotA] [] = false ∧
     check_conflict [slotA] [slotB] = false) :=
  ⟨by decide, check_conflict_spec [slotA] [slotB] slotA slotB (by decide)⟩

/-- Claim C10: the schedule-overlap predicate is commutative, so a conflict outcome
does not depend on which of the two schedules is the candidate. -/
theorem check_conflict_comm (A B : List Slot) :
    check_conflict A B = check_conflict B A := by
  cases h1 : check_conflict A B <;> cases h2 : check_conflict B A <;> try rfl
  · rw [check_conflict_eq_true_iff] at h2
    obtain ⟨x, hx, y, hy, hd, hlt1, hlt2⟩ := h2
    have : check_conflict A B = true :=
      (check_conflict_eq_true_iff A B).mpr ⟨y, hy, x, hx, hd.symm, hlt2, hlt1⟩
    rw [h1] at this
    cases this
  · rw [check_conflict_eq_true_iff] at h1
    obtain ⟨x, hx, y, hy, hd, hlt1, hlt2⟩ := h1
    have : check_conflict B A = true :=
      (check_conflict_eq_true_iff B A).mpr ⟨y, hy, x, hx, hd.symm, hlt2, hlt1⟩
    rw [h2] at this
    cases this


theorem length_filter_le_filter {α : Type} {l : List α} {p q : α → Bool}
    (hpq : ∀ x, p x = true → q x = true) :
    (l.filter p).length ≤ (l.filter q).length := by
  induction l with
  | nil => simp
  | cons x xs ih =>
    rw [List.filter_cons, List.filter_cons]
    by_cases hx : p x = true
    · rw [hx, hpq x hx]
      simpa using ih
    · rw [Bool.not_eq_true] at hx
      rw [hx]
      cases hq : q x <;> simp <;> omega
  
theorem length_filter_lt {α : Type} {l : List α} {p q : α → Bool} {a : α}
    (ha : a ∈ l) (hpq : ∀ x, p x = true → q x = true)
    (hpa : p a = false) (hqa : q a = true) :
    (l.filter p).length < (l.filter q).length := by
  induction l with
  | nil => cases ha
  | cons x xs ih =>
    rcases List.mem_cons.mp ha with rfl | hmem
    · rw [List.filter_cons, List.filter_cons, hpa, hqa]
      simpa using Nat.lt_succ_of_le (length_filter_le_filter hpq)
    · rw [List.filter_cons, List.filter_cons]
      by_cases hx : p x = true
      · rw [hx, hpq x hx]
        simpa using ih hmem
      · rw [Bool.not_eq_true] at hx
        rw [hx]
        cases hq : q x
        · simpa using ih hmem
        · simpa using Nat.lt_succ_of_lt (ih hmem)

/-- Claim C4 counterexample: two distinct waitlist entries for the same section
with equal join timestamps both get position 1, so get_position does not
break ties by insertion order and positions of distinct entries are not
always distinct. -/
theorem get_position_tie_counterexample :
    tieEntry1 ∈ tieTable ∧ tieEntry2 ∈ tieTable ∧
    tieEntry1.id = 1 ∧ tieEntry2.id = 2 ∧
    tieEntry1.sectionId = tieEntry2.sectionId ∧
    tieEntry1.joined_at = tieEntry2.joined_at ∧
    get_position tieTable tieEntry1 = 1 ∧
    get_position tieTable tieEntry2 = 1 := by
  decide

/-- Claim C4 amended: position equals one plus the count of same-section entries
with a strictly earlier join timestamp; two same-section entries with
different join timestamps get different (ordered) positions, but entries
with equal join timestamps share the same position — there is no
insertion-order tie-break. -/
theorem get_position_amended (table : List WaitlistEntry)
    (w1 w2 : WaitlistEntry) (hmem : w1 ∈ table)
    (hsec : w1.sectionId = w2.sectionId) :
    (get_position table w1 =
      (table.filter fun e =>
        e.sectionId == w1.sectionId &&
          decide (e.joined_at < w1.joined_at)).length + 1) ∧
    (w1.joined_at < w2.joined_at →
      get_position table w1 < get_position table w2) ∧
    (w1.joined_at = w2.joined_at →
      get_position table w1 = get_position table w2) := by
  refine ⟨rfl, ?_, ?_⟩
  · intro hlt
    unfold get_position
    have hpq : ∀ x : WaitlistEntry,
        (x.sectionId == w1.sectionId && decide (x.joined_at < w1.joined_at)) = true →
        (x.sectionId == w2.sectionId && decide (x.joined_at < w2.joined_at)) = true := by
      intro x hx
      rw [Bool.and_eq_true] at hx ⊢
      obtain ⟨hxs, hxt⟩ := hx
      refine ⟨by rw [beq_iff_eq] at hxs ⊢; rw [hxs, hsec], ?_⟩
      rw [decide_eq_true_eq] at hxt ⊢
      omega
    have hpa :
        (w1.sectionId == w1.sectionId && decide (w1.joined_at < w1.joined_at)) = false := by
      rw [Bool.and_eq_false_iff]
      right
      simp
    have hqa :
        (w1.sectionId == w2.sectionId && decide (w1.joined_at < w2.joined_at)) = true := by
      rw [Bool.and_eq_true, beq_iff_eq, decide_eq_true_eq]
      exact ⟨hsec, hlt⟩
    have h := length_filter_lt hmem hpq hpa hqa
    omega
  · intro heq
    unfold get_position
    rw [hsec, heq]

theorem get_position_amended_witness :
    posEntry1 ∈ posTable ∧ posEntry1.sectionId = posEntry2.sectionId ∧
    posEntry1.joined_at < posEntry2.joined_at ∧
    get_position posTable posEntry1 < get_position posTable posEntry2 :=
  ⟨by decide, by decide, by decide,
   (get_position_amended posTable posEntry1 posEntry2 (by decide)
      (by decide)).2.1 (by decide)⟩

/-- Claim C8 counterexample: on a lock timeout the enroll view attempts the
operation exactly once and surfaces the failure with no result, never the
two attempts (one retry) the claim requires; likewise for drop. -/
theorem lock_timeout_no_retry_counterexample :
    (postHandler dbEmpty 7 1 0 .timeout).2.2 = 1 ∧
    (postHandler dbEmpty 7 1 0 .timeout).1 = none ∧
    (postHandler dbEmpty 7 1 0 .timeout).2.1 = dbEmpty ∧
    (dropHandler dbEmpty 7 1 .timeout).2.2 = 1 ∧
    (dropHandler dbEmpty 7 1 .timeout).1 = none := by
  decide

/-- Claim C8 amended: a lock timeout makes enroll and drop fail immediately after a
single attempt, with no retry and no partial state: the database is returned
unchanged. -/
theorem lock_timeout_single_attempt (db : DB) (st sid ts : Nat) :
    postHandler db st sid ts .timeout = (none, db, 1) ∧
    dropHandler db st sid .timeout = (none, db, 1) :=
  ⟨rfl, rfl⟩


end CourseReg
